import Mathlib

/-!
Shallow embedding of the product-catalog pricing engine and the main-image
assignment rules of src/examples/demo/products/models.py, together with
theorems settling the frozen claims about them.

Modelling conventions:
  * Decimal values (prices, rates, quantities) are modelled as rationals.
    At the declared precisions (12,4 prices, 4,2 rates, 10,4 quantities)
    every operation performed by the code (add, subtract, multiply by the
    rate and by 0.01) is exact in decimal arithmetic, so the rational model
    coincides with the decimal one.
  * Foreign keys are inlined: a Product carries its optional DiscountGroup
    and its list of PriceQtyOverride rows; a Variant carries its Product.
  * Query sets are lists; ordering clauses are insertion sorts by the
    declared key; indexing an empty query set raises IndexError, as list
    indexing does in the host language.
  * Fallible code returns Except PyError.
-/

/-- Exceptions the modelled code can raise or catch. -/
inductive PyError
  | indexError
  | priceQtyOverrideDoesNotExist
  | productDoesNotExist
deriving DecidableEq

/-- A price: a decimal amount tagged with a currency (the prices library
class used by the code). -/
structure Price where
  net : ℚ
  currency : String
deriving DecidableEq

/-- The configured default currency, settings.SATCHESS_DEFAULT_CURRENCY.
Its concrete value lives in external settings; nothing below depends on it. -/
def SATCHESS_DEFAULT_CURRENCY : String := "PLN"

/-- Price addition (price += Price(offset, currency)): both operands carry
the same configured currency everywhere in this code, so addition combines
the amounts and keeps the currency. -/
def Price.add (a b : Price) : Price := { net := a.net + b.net, currency := a.currency }

/-- Price subtraction (price -= discount_amount). -/
def Price.sub (a b : Price) : Price := { net := a.net - b.net, currency := a.currency }

/-- DiscountGroup: a named percentage discount. -/
structure DiscountGroup where
  name : String
  rate : ℚ
  rate_name : String
deriving DecidableEq

/-- DiscountGroup.get_discount_amount: price * rate * Decimal 0.01. -/
def DiscountGroup.get_discount_amount (g : DiscountGroup) (price : Price) : Price :=
  { net := price.net * g.rate * (1 / 100), currency := price.currency }

/-- PriceQtyOverride: overrides the unit price once the quantity reaches
min_qty. -/
structure PriceQtyOverride where
  min_qty : ℚ
  price : ℚ
deriving DecidableEq

/-- Product: quantity pricing mode, base price, optional discount group and
the related qty_price_overrides rows. -/
structure Product where
  qty_mode : String
  price : ℚ
  discount : Option DiscountGroup
  qty_price_overrides : List PriceQtyOverride
deriving DecidableEq

/-- Insertion of an element into a list kept ordered by the boolean
relation le: the element goes in front of the first entry it relates to. -/
def insertOrdered (le : α → α → Bool) (a : α) : List α → List α
  | [] => [a]
  | b :: bs => if le a b then a :: b :: bs else b :: insertOrdered le a bs

/-- Insertion sort by the boolean relation le; models an order_by clause. -/
def orderBy (le : α → α → Bool) : List α → List α
  | [] => []
  | a :: as => insertOrdered le a (orderBy le as)

/-- Descending min_qty, the order_by key used by the base-price lookup. -/
def byMinQtyDesc (a b : PriceQtyOverride) : Bool := decide (b.min_qty ≤ a.min_qty)

/-- Indexing a query set or list: overrides[0]; IndexError when out of
range (in particular on an empty result). -/
def qsGetItem (l : List α) (i : Nat) : Except PyError α :=
  match l.get? i with
  | some a => Except.ok a
  | none => Except.error PyError.indexError

/-- The except clause of Product._get_base_price: it handles only
PriceQtyOverride.DoesNotExist; every other exception propagates. -/
def catchOverrideDoesNotExist (x : Except PyError α) (fallback : α) : Except PyError α :=
  match x with
  | Except.error PyError.priceQtyOverrideDoesNotExist => Except.ok fallback
  | r => r

/-- The filtered and ordered override query set built by
Product._get_base_price: rows with min_qty <= quantity, descending by
min_qty. -/
def Product.qualifyingOverrides (p : Product) (quantity : ℚ) : List PriceQtyOverride :=
  orderBy byMinQtyDesc (p.qty_price_overrides.filter (fun o => decide (o.min_qty ≤ quantity)))

/-- Product._get_base_price: takes overrides[0] of the filtered descending
query set inside a try block whose except clause catches only
PriceQtyOverride.DoesNotExist and then falls back to the product price. -/
def Product._get_base_price (p : Product) (quantity : ℚ) : Except PyError Price :=
  catchOverrideDoesNotExist
    ((qsGetItem (p.qualifyingOverrides quantity) 0).map
      (fun o => { net := o.price, currency := SATCHESS_DEFAULT_CURRENCY }))
    { net := p.price, currency := SATCHESS_DEFAULT_CURRENCY }

/-- Variant: owning product and per-variant price offset. -/
structure Variant where
  product : Product
  price_offset : ℚ
deriving DecidableEq

/-- Variant.get_price_for_item (the resolve_unit_price operation): base
price for the quantity, plus the variant offset, minus the discount amount
when the discount flag is set and the product has a discount group. -/
def Variant.get_price_for_item (v : Variant) (discount : Bool) (quantity : ℚ) :
    Except PyError Price :=
  match v.product._get_base_price quantity with
  | Except.error e => Except.error e
  | Except.ok basePrice =>
    let price := basePrice.add { net := v.price_offset, currency := SATCHESS_DEFAULT_CURRENCY }
    match discount, v.product.discount with
    | true, some g => Except.ok (price.sub (g.get_discount_amount price))
    | _, _ => Except.ok price

/-- ProductImage: primary key, caption and ordering value (the image file
itself does not affect the modelled behaviour). -/
structure ProductImage where
  id : Nat
  caption : String
  order : Nat
deriving DecidableEq

/-- Ascending order, the Meta ordering of ProductImage query sets. -/
def byOrderAsc (a b : ProductImage) : Bool := decide (a.order ≤ b.order)

/-- images.all(): the image rows sorted by the Meta ordering. -/
def imagesOrdered (images : List ProductImage) : List ProductImage :=
  orderBy byOrderAsc images

/-- images.all()[0] as an Option: the first image by ascending order. -/
def qsFirst (images : List ProductImage) : Option ProductImage :=
  (imagesOrdered images).head?

/-- Python x or y for an optional non-negative integer x: None and 0 are
falsy, so both fall through to y. -/
def pyOrNat (x : Option Nat) (d : Nat) : Nat :=
  match x with
  | none => d
  | some 0 => d
  | some (Nat.succ n) => Nat.succ n

/-- images.aggregate(Max(order)): None on an empty image set, otherwise the
greatest order value. -/
def aggregateMaxOrder (images : List ProductImage) : Option Nat :=
  (images.map ProductImage.order).max?

/-- ProductImage.save: the order value the row carries after save, given
the sibling images already stored for the product and the order field as it
was before save (None when the caller left it unset). The auto branch
assigns aggregate Max of the existing orders, with Python or turning None
into 0. -/
def ProductImage.savedOrder (existing : List ProductImage) (order : Option Nat) : Nat :=
  match order with
  | some o => o
  | none => pyOrNat (aggregateMaxOrder existing) 0

/-- The image-related state of one product: its image rows and the
main_image foreign key (an image primary key, or none). -/
structure ProductImagesState where
  images : List ProductImage
  main_image : Option Nat
deriving DecidableEq

/-- An image-created event together with the post_save receiver
assign_main_image: the image row is added, then, unless the load is raw,
when the product has no main_image and has images the receiver stores the
first image by ascending order as main_image. -/
def createImage (s : ProductImagesState) (img : ProductImage) (raw : Bool) :
    ProductImagesState :=
  let images2 := s.images ++ [img]
  if raw = false ∧ s.main_image = none ∧ images2 ≠ [] then
    { images := images2, main_image := (qsFirst images2).map ProductImage.id }
  else
    { images := images2, main_image := s.main_image }

/-- An image-deleted event together with the post_delete receiver
assign_new_main_image, for a product that still exists. The row is removed;
the stored foreign key is nulled by on_delete SET_NULL when it pointed at
the deleted row; the receiver, which observes the product as it was before
the delete and queries the remaining images, reassigns main_image to the
first remaining image by ascending order when the deleted image was the
main image and images remain. -/
def deleteImage (s : ProductImagesState) (i : Nat) : ProductImagesState :=
  let remaining := s.images.filter (fun img => decide (img.id ≠ i))
  let stored : Option Nat := if s.main_image = some i then none else s.main_image
  if s.main_image = some i ∧ remaining ≠ [] then
    { images := remaining, main_image := (qsFirst remaining).map ProductImage.id }
  else
    { images := remaining, main_image := stored }

/-- Resolving instance.product inside assign_new_main_image: raises
Product.DoesNotExist when the product row is gone. -/
def resolveProduct (product : Option ProductImagesState) :
    Except PyError ProductImagesState :=
  match product with
  | some s => Except.ok s
  | none => Except.error PyError.productDoesNotExist

/-- The except clause of assign_new_main_image: Product.DoesNotExist is
swallowed (pass); every other exception propagates. -/
def catchProductDoesNotExist (x : Except PyError α) (dflt : α) : Except PyError α :=
  match x with
  | Except.error PyError.productDoesNotExist => Except.ok dflt
  | r => r

/-- The whole post_delete processing of assign_new_main_image when the
owning product may have been deleted concurrently: none models a product
reference that no longer resolves. -/
def deleteImageEvent (product : Option ProductImagesState) (i : Nat) :
    Except PyError (Option ProductImagesState) :=
  catchProductDoesNotExist
    ((resolveProduct product).map (fun s => some (deleteImage s i)))
    product

/-- The image events handled by the assignment rules. -/
inductive ImageEvent
  | create (img : ProductImage) (raw : Bool)
  | delete (i : Nat)

/-- Apply one event to the product state. -/
def applyEvent (s : ProductImagesState) : ImageEvent → ProductImagesState
  | ImageEvent.create img raw => createImage s img raw
  | ImageEvent.delete i => deleteImage s i

/-- Apply a finite sequence of events in order. -/
def applyEvents (s : ProductImagesState) (es : List ImageEvent) : ProductImagesState :=
  es.foldl applyEvent s

/-- An event that does not bypass invariant maintenance: a create that is
not a raw or bulk load, or any delete. -/
def nonRawEvent : ImageEvent → Prop
  | ImageEvent.create _ raw => raw = false
  | ImageEvent.delete _ => True

/-- The main-image invariant: a product with no images has no main image; a
product with images has a main image that is one of its own images. -/
def mainImageInvariant (s : ProductImagesState) : Prop :=
  (s.images = [] → s.main_image = none) ∧
  (s.images ≠ [] → ∃ img, img ∈ s.images ∧ s.main_image = some img.id)

/-- The worked scenario of the specification: base price 10.0000 and
override rows (min_qty 5, price 8.0000) and (min_qty 10, price 6.0000). -/
def demoProduct : Product :=
  { qty_mode := "variant", price := 10, discount := none,
    qty_price_overrides := [{ min_qty := 5, price := 8 }, { min_qty := 10, price := 6 }] }

/-- A variant of the demo product with price offset 0.5000. -/
def demoVariant : Variant := { product := demoProduct, price_offset := 1 / 2 }

/-- A discount group with rate 20.00 percent. -/
def demoDiscount : DiscountGroup := { name := "demo", rate := 20, rate_name := "demo rate" }

/-- The demo product with the 20.00 percent discount group attached. -/
def demoDiscountProduct : Product := { demoProduct with discount := some demoDiscount }

/-- A variant of the discounted demo product with price offset 0.5000. -/
def demoDiscountVariant : Variant :=
  { product := demoDiscountProduct, price_offset := 1 / 2 }

theorem insertOrdered_ne_nil (le : α → α → Bool) (a : α) (l : List α) :
    insertOrdered le a l ≠ [] := by
  cases l with
  | nil => simp [insertOrdered]
  | cons b bs =>
    simp only [insertOrdered]
    split <;> simp

theorem orderBy_eq_nil_iff (le : α → α → Bool) (l : List α) :
    orderBy le l = [] ↔ l = [] := by
  cases l with
  | nil => simp [orderBy]
  | cons a as =>
    simp only [orderBy]
    constructor
    · intro h
      exact absurd h (insertOrdered_ne_nil le a (orderBy le as))
    · intro h
      exact absurd h (List.cons_ne_nil a as)

theorem orderBy_head_min (le : α → α → Bool)
    (htot : ∀ x y : α, le x y = true ∨ le y x = true)
    (htrans : ∀ x y z : α, le x y = true → le y z = true → le x z = true)
    (l : List α) (m : α) (h : (orderBy le l).head? = some m) :
    m ∈ l ∧ ∀ x ∈ l, le m x = true := by
  induction l generalizing m with
  | nil => simp [orderBy] at h
  | cons a as ih =>
    have hrefl : ∀ x : α, le x x = true := by
      intro x
      rcases htot x x with hx | hx <;> exact hx
    rw [orderBy] at h
    cases hs : orderBy le as with
    | nil =>
      rw [hs] at h
      simp only [insertOrdered, List.head?] at h
      have has : as = [] := (orderBy_eq_nil_iff le as).mp hs
      subst has
      have hm : m = a := (Option.some_inj.mp h).symm
      subst hm
      refine ⟨List.mem_singleton.mpr rfl, ?_⟩
      intro x hx
      rw [List.mem_singleton] at hx
      rw [hx]
      exact hrefl m
    | cons b bs =>
      have ihb : b ∈ as ∧ ∀ x ∈ as, le b x = true := by
        apply ih
        rw [hs]
        rfl
      rw [hs] at h
      simp only [insertOrdered] at h
      by_cases hab : le a b = true
      · rw [if_pos hab] at h
        simp only [List.head?] at h
        have hm : m = a := (Option.some_inj.mp h).symm
        subst hm
        refine ⟨List.mem_cons_self m as, ?_⟩
        intro x hx
        rcases List.mem_cons.mp hx with hxa | hxas
        · rw [hxa]
          exact hrefl m
        · exact htrans m b x hab (ihb.2 x hxas)
      · rw [if_neg hab] at h
        simp only [List.head?] at h
        have hm : m = b := (Option.some_inj.mp h).symm
        subst hm
        refine ⟨List.mem_cons_of_mem a ihb.1, ?_⟩
        intro x hx
        rcases List.mem_cons.mp hx with hxa | hxas
        · rw [hxa]
          rcases htot a m with hab2 | hba
          · exact absurd hab2 hab
          · exact hba
        · exact ihb.2 x hxas

theorem byOrderAsc_total (x y : ProductImage) :
    byOrderAsc x y = true ∨ byOrderAsc y x = true := by
  simp only [byOrderAsc, decide_eq_true_eq]
  exact Nat.le_total x.order y.order

theorem byOrderAsc_trans (x y z : ProductImage) :
    byOrderAsc x y = true → byOrderAsc y z = true → byOrderAsc x z = true := by
  simp only [byOrderAsc, decide_eq_true_eq]
  exact Nat.le_trans

theorem byMinQtyDesc_total (x y : PriceQtyOverride) :
    byMinQtyDesc x y = true ∨ byMinQtyDesc y x = true := by
  simp only [byMinQtyDesc, decide_eq_true_eq]
  exact le_total y.min_qty x.min_qty

theorem byMinQtyDesc_trans (x y z : PriceQtyOverride) :
    byMinQtyDesc x y = true → byMinQtyDesc y z = true → byMinQtyDesc x z = true := by
  simp only [byMinQtyDesc, decide_eq_true_eq]
  intro h1 h2
  exact le_trans h2 h1

/-- The first image by ascending order is one of the images and has the
least order value. -/
theorem qsFirst_min (images : List ProductImage) (f : ProductImage)
    (h : qsFirst images = some f) :
    f ∈ images ∧ ∀ x ∈ images, f.order ≤ x.order := by
  have := orderBy_head_min byOrderAsc byOrderAsc_total byOrderAsc_trans images f h
  refine ⟨this.1, ?_⟩
  intro x hx
  have hb := this.2 x hx
  simpa [byOrderAsc] using hb

/-- A nonempty image list has a first image by ascending order. -/
theorem qsFirst_isSome (images : List ProductImage) (h : images ≠ []) :
    ∃ f, qsFirst images = some f := by
  unfold qsFirst
  cases hs : imagesOrdered images with
  | nil =>
    unfold imagesOrdered at hs
    exact absurd ((orderBy_eq_nil_iff byOrderAsc images).mp hs) h
  | cons a as => exact ⟨a, rfl⟩

/-- The head of the descending override query set is a qualifying override
with the greatest min_qty. -/
theorem qualifyingOverrides_head_max (p : Product) (q : ℚ) (o : PriceQtyOverride)
    (h : (p.qualifyingOverrides q).head? = some o) :
    o ∈ p.qty_price_overrides.filter (fun r => decide (r.min_qty ≤ q)) ∧
      ∀ x ∈ p.qty_price_overrides.filter (fun r => decide (r.min_qty ≤ q)),
        x.min_qty ≤ o.min_qty := by
  have := orderBy_head_min byMinQtyDesc byMinQtyDesc_total byMinQtyDesc_trans
    (p.qty_price_overrides.filter (fun r => decide (r.min_qty ≤ q))) o h
  refine ⟨this.1, ?_⟩
  intro x hx
  have hb := this.2 x hx
  simpa [byMinQtyDesc] using hb

/-- C1: the claim states that a quantity qualifying no override row (in
particular a product with no override rows at all) falls back to the
product base price without raising. The code instead raises IndexError at
every such input: indexing the empty filtered query set raises IndexError,
and the except clause catches only PriceQtyOverride.DoesNotExist, so the
base-price fallback is unreachable. Evaluated at the failing input: product
with base price 10, no override rows, quantity 1, variant offset 0.5000,
discounts off. -/
theorem C1_no_qualifying_override_raises_IndexError :
    (Product.mk "variant" 10 none [])._get_base_price 1 =
      Except.error PyError.indexError ∧
    (Variant.mk (Product.mk "variant" 10 none []) (1 / 2)).get_price_for_item false 1 =
      Except.error PyError.indexError := by
  exact ⟨rfl, rfl⟩

/-- C3: the claim states the auto-assigned order is max of the existing
orders plus one (0 when none exist), so duplicates cannot arise. The code
assigns the aggregate Max with no increment: with no existing images the
order is 0, but with existing orders 0 and 1 the new image gets order 1,
duplicating an existing order where the claim requires 2. -/
theorem C3_auto_order_lacks_increment :
    ProductImage.savedOrder [] none = 0 ∧
    ProductImage.savedOrder
      [{ id := 1, caption := "a", order := 0 },
       { id := 2, caption := "b", order := 1 }] none = 1 ∧
    (1 : Nat) ∈ (([{ id := 1, caption := "a", order := 0 },
       { id := 2, caption := "b", order := 1 }] : List ProductImage).map
         ProductImage.order) := by
  refine ⟨rfl, by decide, by decide⟩

/-- C10: a caller-chosen non-null order value is preserved by
ProductImage.save: the auto-assignment branch runs only when the order
field is unset, so an explicit order is never overwritten. -/
theorem C10_explicit_order_preserved (existing : List ProductImage) (o : Nat) :
    ProductImage.savedOrder existing (some o) = o := rfl

/-- C9: the engine performs no flooring at zero: there is a variant (tier
price 5, price offset -10, discount rate 10 percent) and a quantity for
which resolve_unit_price returns the arithmetically computed price -4.5,
which is strictly negative. -/
theorem C9_negative_price_reachable :
    ∃ (v : Variant) (q : ℚ) (r : Price),
      v.get_price_for_item true q = Except.ok r ∧ r.net < 0 := by
  refine ⟨{ product := { qty_mode := "variant", price := 5,
                         discount := some { name := "g", rate := 10, rate_name := "g" },
                         qty_price_overrides := [{ min_qty := 1, price := 5 }] },
            price_offset := -10 },
          1, { net := -9 / 2, currency := SATCHESS_DEFAULT_CURRENCY }, ?_, by norm_num⟩
  have d1 : decide ((1 : ℚ) ≤ 1) = true := decide_eq_true (by norm_num)
  simp [Variant.get_price_for_item, Product._get_base_price, Product.qualifyingOverrides,
        List.filter, d1, orderBy, insertOrdered, qsGetItem, List.get?, Except.map,
        catchOverrideDoesNotExist, Price.add, Price.sub, DiscountGroup.get_discount_amount,
        Price.mk.injEq]
  norm_num

/-- C4: when at least one override row of the owning product has min_qty at
most the requested quantity, _get_base_price returns the unit price of a
qualifying override whose min_qty is greatest among the qualifying rows:
the maximum tier at or below the quantity wins. -/
theorem C4_max_qualifying_tier_selected (p : Product) (q : ℚ)
    (h : p.qty_price_overrides.filter (fun r => decide (r.min_qty ≤ q)) ≠ []) :
    ∃ o ∈ p.qty_price_overrides.filter (fun r => decide (r.min_qty ≤ q)),
      (∀ x ∈ p.qty_price_overrides.filter (fun r => decide (r.min_qty ≤ q)),
        x.min_qty ≤ o.min_qty) ∧
      p._get_base_price q =
        Except.ok { net := o.price, currency := SATCHESS_DEFAULT_CURRENCY } := by
  cases hq : p.qualifyingOverrides q with
  | nil =>
    rw [Product.qualifyingOverrides, orderBy_eq_nil_iff] at hq
    exact absurd hq h
  | cons o rest =>
    have hhead : (p.qualifyingOverrides q).head? = some o := by rw [hq]; rfl
    have hmax := qualifyingOverrides_head_max p q o hhead
    refine ⟨o, hmax.1, hmax.2, ?_⟩
    unfold Product._get_base_price
    rw [hq]
    rfl

/-- C4 witness: the scenario of the specification. At quantity 7 the demo
product has exactly one qualifying override, the tier min_qty 5 with price
8.0000; the theorem applies there and, with the variant offset 0.5000 and
discounts off, the unit price is 8.5000. -/
theorem C4_witness :
    (demoProduct.qty_price_overrides.filter (fun r => decide (r.min_qty ≤ 7)) ≠ []) ∧
    (∃ o ∈ demoProduct.qty_price_overrides.filter (fun r => decide (r.min_qty ≤ 7)),
      (∀ x ∈ demoProduct.qty_price_overrides.filter (fun r => decide (r.min_qty ≤ 7)),
        x.min_qty ≤ o.min_qty) ∧
      demoProduct._get_base_price 7 =
        Except.ok { net := o.price, currency := SATCHESS_DEFAULT_CURRENCY }) ∧
    demoVariant.get_price_for_item false 7 =
      Except.ok { net := 17 / 2, currency := SATCHESS_DEFAULT_CURRENCY } := by
  have d1 : decide ((5 : ℚ) ≤ 7) = true := decide_eq_true (by norm_num)
  have d2 : decide ((10 : ℚ) ≤ 7) = false := decide_eq_false (by norm_num)
  have hfil : demoProduct.qty_price_overrides.filter (fun r => decide (r.min_qty ≤ 7)) =
      [{ min_qty := 5, price := 8 }] := by
    simp [demoProduct, List.filter, d1, d2]
  have hne : demoProduct.qty_price_overrides.filter (fun r => decide (r.min_qty ≤ 7)) ≠ [] := by
    rw [hfil]
    exact List.cons_ne_nil _ _
  refine ⟨hne, C4_max_qualifying_tier_selected demoProduct 7 hne, ?_⟩
  simp [Variant.get_price_for_item, demoVariant, demoProduct, Product._get_base_price,
        Product.qualifyingOverrides, List.filter, d1, d2, orderBy, insertOrdered, qsGetItem,
        List.get?, Except.map, catchOverrideDoesNotExist, Price.add, Price.mk.injEq]
  norm_num

/-- C5: with a discount group of rate r attached to the owning product,
resolve_unit_price with discounts on equals (base + offset) * (1 - r/100)
exactly, base being the base-price resolution of the code itself: the
percentage discount is computed on the already-offset price, after the
variant offset is added, and errors of the base resolution propagate
unchanged on both sides. -/
theorem C5_discount_applied_after_offset (v : Variant) (q : ℚ) (g : DiscountGroup)
    (hg : v.product.discount = some g) :
    v.get_price_for_item true q =
      (v.product._get_base_price q).map
        (fun b => { net := (b.net + v.price_offset) * (1 - g.rate / 100),
                    currency := b.currency }) := by
  unfold Variant.get_price_for_item
  cases hb : v.product._get_base_price q with
  | error e => simp [Except.map]
  | ok b =>
    rw [hg]
    simp [Except.map, Price.add, Price.sub, DiscountGroup.get_discount_amount, Price.mk.injEq]
    ring

/-- C5 witness: the 20.00 percent discount group on the demo product: at
quantity 7 the discounted demo variant satisfies the equation of the
theorem, and concretely the unit price is 8.5000 * 0.8 = 6.8000. -/
theorem C5_witness :
    demoDiscountVariant.get_price_for_item true 7 =
      (demoDiscountVariant.product._get_base_price 7).map
        (fun b => { net := (b.net + demoDiscountVariant.price_offset) *
                            (1 - demoDiscount.rate / 100),
                    currency := b.currency }) ∧
    demoDiscountVariant.get_price_for_item true 7 =
      Except.ok { net := 34 / 5, currency := SATCHESS_DEFAULT_CURRENCY } := by
  constructor
  · exact C5_discount_applied_after_offset demoDiscountVariant 7 demoDiscount rfl
  · have d1 : decide ((5 : ℚ) ≤ 7) = true := decide_eq_true (by norm_num)
    have d2 : decide ((10 : ℚ) ≤ 7) = false := decide_eq_false (by norm_num)
    simp [Variant.get_price_for_item, demoDiscountVariant, demoDiscountProduct, demoDiscount,
          demoProduct, Product._get_base_price, Product.qualifyingOverrides, List.filter,
          d1, d2, orderBy, insertOrdered, qsGetItem, List.get?, Except.map,
          catchOverrideDoesNotExist, Price.add, Price.sub, DiscountGroup.get_discount_amount,
          Price.mk.injEq]
    norm_num

/-- C6: with the discount flag off, or with no discount group reference on
the product, resolve_unit_price is exactly the resolved base price plus the
variant price offset: the discount subtraction happens only when the flag
is set and the reference is non-null. -/
theorem C6_no_discount_exact (v : Variant) (q : ℚ) :
    v.get_price_for_item false q =
      (v.product._get_base_price q).map
        (fun b => { net := b.net + v.price_offset, currency := b.currency }) ∧
    (v.product.discount = none →
      v.get_price_for_item true q =
        (v.product._get_base_price q).map
          (fun b => { net := b.net + v.price_offset, currency := b.currency })) := by
  constructor
  · unfold Variant.get_price_for_item
    cases hb : v.product._get_base_price q with
    | error e => simp [Except.map]
    | ok b =>
      cases hd : v.product.discount with
      | none => simp [Except.map, Price.add]
      | some g => simp [Except.map, Price.add]
  · intro hnone
    unfold Variant.get_price_for_item
    cases hb : v.product._get_base_price q with
    | error e => simp [Except.map]
    | ok b =>
      rw [hnone]
      simp [Except.map, Price.add]

/-- C7: on a non-raw image-created event with the owning product having no
main image, assign_main_image stores the first image by ascending order as
main_image (an image of the product with minimal order) and persists the
product; when the product already has a main image, or the event is a raw
load, the receiver leaves main_image untouched. -/
theorem C7_create_assigns_first_when_unset (s : ProductImagesState)
    (img : ProductImage) (raw : Bool) :
    (raw = false → s.main_image = none →
      ∃ f, qsFirst (s.images ++ [img]) = some f ∧
        createImage s img raw =
          { images := s.images ++ [img], main_image := some f.id } ∧
        f ∈ s.images ++ [img] ∧ ∀ x ∈ s.images ++ [img], f.order ≤ x.order) ∧
    ((s.main_image ≠ none ∨ raw = true) →
      createImage s img raw =
        { images := s.images ++ [img], main_image := s.main_image }) := by
  constructor
  · intro hraw hmain
    have hne : s.images ++ [img] ≠ [] := by simp
    obtain ⟨f, hf⟩ := qsFirst_isSome (s.images ++ [img]) hne
    have hmin := qsFirst_min (s.images ++ [img]) f hf
    refine ⟨f, hf, ?_, hmin.1, hmin.2⟩
    simp only [createImage]
    rw [if_pos ⟨hraw, hmain, hne⟩, hf]
    rfl
  · intro hcase
    have hneg : ¬(raw = false ∧ s.main_image = none ∧ s.images ++ [img] ≠ []) := by
      intro hcond
      rcases hcase with hm | hr
      · exact hm hcond.2.1
      · rw [hr] at hcond
        exact Bool.noConfusion hcond.1
    simp only [createImage]
    rw [if_neg hneg]

/-- C8: on an image-deleted event where the deleted image was the main
image of a still-existing product and images remain, the processing
reassigns main_image to the first remaining image by ascending order (a
remaining image of the product with minimal order); and when the owning
product no longer resolves, the handler catches Product.DoesNotExist and is
a silent no-op that raises nothing. -/
theorem C8_delete_reassigns_or_noops (s : ProductImagesState) (i : Nat) :
    (s.main_image = some i →
      s.images.filter (fun img => decide (img.id ≠ i)) ≠ [] →
      ∃ f, qsFirst (s.images.filter (fun img => decide (img.id ≠ i))) = some f ∧
        deleteImage s i =
          { images := s.images.filter (fun img => decide (img.id ≠ i)),
            main_image := some f.id } ∧
        f ∈ s.images.filter (fun img => decide (img.id ≠ i)) ∧
        ∀ x ∈ s.images.filter (fun img => decide (img.id ≠ i)), f.order ≤ x.order) ∧
    deleteImageEvent none i = Except.ok none := by
  constructor
  · intro hmain hne
    obtain ⟨f, hf⟩ := qsFirst_isSome _ hne
    have hmin := qsFirst_min _ f hf
    refine ⟨f, hf, ?_, hmin.1, hmin.2⟩
    simp only [deleteImage]
    rw [if_pos ⟨hmain, hne⟩, hf]
    rfl
  · rfl

/-- Creating an image with the receiver active (a non-raw load) preserves
the main-image invariant. -/
theorem createImage_preserves_invariant (s : ProductImagesState) (img : ProductImage)
    (h : mainImageInvariant s) : mainImageInvariant (createImage s img false) := by
  have hne : s.images ++ [img] ≠ [] := by simp
  simp only [createImage]
  split
  · obtain ⟨f, hf⟩ := qsFirst_isSome (s.images ++ [img]) hne
    have hmem := (qsFirst_min _ f hf).1
    refine ⟨fun h0 => absurd h0 hne, fun _ => ⟨f, hmem, ?_⟩⟩
    show (qsFirst (s.images ++ [img])).map ProductImage.id = some f.id
    rw [hf]
    rfl
  · rename_i hcond
    have hm : s.main_image ≠ none := by
      intro hmnone
      exact hcond ⟨by trivial, hmnone, hne⟩
    have hsne : s.images ≠ [] := fun h0 => hm (h.1 h0)
    obtain ⟨img0, hmem0, hsome⟩ := h.2 hsne
    exact ⟨fun h0 => absurd h0 hne, fun _ => ⟨img0, List.mem_append_left _ hmem0, hsome⟩⟩

/-- Deleting an image (the SET_NULL clearing together with the receiver)
preserves the main-image invariant. -/
theorem deleteImage_preserves_invariant (s : ProductImagesState) (i : Nat)
    (h : mainImageInvariant s) : mainImageInvariant (deleteImage s i) := by
  simp only [deleteImage]
  split
  · rename_i hc
    obtain ⟨f, hf⟩ := qsFirst_isSome _ hc.2
    have hmem := (qsFirst_min _ f hf).1
    refine ⟨fun h0 => absurd h0 hc.2, fun _ => ⟨f, hmem, ?_⟩⟩
    show (qsFirst (s.images.filter (fun img => decide (img.id ≠ i)))).map ProductImage.id =
      some f.id
    rw [hf]
    rfl
  · rename_i hc
    split
    · rename_i hmi
      have hrem : s.images.filter (fun img => decide (img.id ≠ i)) = [] := by
        by_contra hne
        exact hc ⟨hmi, hne⟩
      exact ⟨fun _ => rfl, fun hne => absurd hrem hne⟩
    · rename_i hmi
      cases hm : s.main_image with
      | none =>
        have hsnil : s.images = [] := by
          by_contra hne
          obtain ⟨img0, _, hsome0⟩ := h.2 hne
          rw [hm] at hsome0
          exact Option.noConfusion hsome0
        have hremnil : s.images.filter (fun img => decide (img.id ≠ i)) = [] := by
          rw [hsnil]
          rfl
        exact ⟨fun _ => rfl, fun hne => absurd hremnil hne⟩
      | some m =>
        have hsne : s.images ≠ [] := by
          intro h0
          rw [h.1 h0] at hm
          exact Option.noConfusion hm
        obtain ⟨img0, hmem0, hsome0⟩ := h.2 hsne
        have hneq : img0.id ≠ i := by
          intro he
          apply hmi
          rw [hsome0, he]
        have hmemrem : img0 ∈ s.images.filter (fun img => decide (img.id ≠ i)) :=
          List.mem_filter.mpr ⟨hmem0, decide_eq_true hneq⟩
        rw [hm] at hsome0
        constructor
        · intro h0
          have h0f : s.images.filter (fun img => decide (img.id ≠ i)) = [] := h0
          rw [h0f] at hmemrem
          exact absurd hmemrem (List.not_mem_nil img0)
        · intro _
          exact ⟨img0, hmemrem, hsome0⟩

/-- C2: after any finite sequence of image events handled by the assignment
rules (creates that are not raw or bulk loads, and deletes), every state
satisfying the main-image invariant still satisfies it: a product with at
least one image has a main image that is one of its own images, and a
product with no images has none. -/
theorem C2_main_image_invariant_preserved (es : List ImageEvent) :
    ∀ s : ProductImagesState, mainImageInvariant s → (∀ e ∈ es, nonRawEvent e) →
      mainImageInvariant (applyEvents s es) := by
  induction es with
  | nil =>
    intro s hinv _
    exact hinv
  | cons e rest ih =>
    intro s hinv hnr
    have h1 : nonRawEvent e := hnr e (List.mem_cons_self e rest)
    have h2 : ∀ x ∈ rest, nonRawEvent x := fun x hx => hnr x (List.mem_cons_of_mem e hx)
    have hstep : mainImageInvariant (applyEvent s e) := by
      cases e with
      | create img raw =>
        have hraw : raw = false := h1
        rw [applyEvent, hraw]
        exact createImage_preserves_invariant s img hinv
      | delete i => exact deleteImage_preserves_invariant s i hinv
    exact ih (applyEvent s e) hstep h2

/-- C2 witness: starting from a product with no images and no main image,
creating two images (not raw) and then deleting the first leaves the
invariant intact. -/
theorem C2_witness :
    mainImageInvariant (applyEvents { images := [], main_image := none }
      [ImageEvent.create { id := 1, caption := "a", order := 0 } false,
       ImageEvent.create { id := 2, caption := "b", order := 1 } false,
       ImageEvent.delete 1]) := by
  apply C2_main_image_invariant_preserved
  · exact ⟨fun _ => rfl, fun hne => absurd rfl hne⟩
  · intro e he
    simp only [List.mem_cons, List.not_mem_nil, or_false] at he
    rcases he with rfl | rfl | rfl <;> trivial
